import Mathlib

/-!
Shallow embedding of the workflow orchestrator of the x-post-replicator
repository, together with theorems settling the specification claims.

Sources embedded:
- `app/schemas/workflow.py` (`WorkflowStepStatus`, `WorkflowStep`,
  `WorkflowResponse`),
- `app/services/workflow_executor.py` (`WorkflowExecutor`:
  `execute_workflow_with_id`, `_execute_step_with_timeout`,
  `_polish_content_step`, `_post_tweets_step`, `cleanup_old_workflows`,
  `get_workflow_status`),
- `app/database/crud.py` (`TweetCRUD.get_tweets_by_username`,
  `TweetCRUD.update_tweet`),
- `app/ai/openai/content_polisher.py` (`ContentPolisher.polish_tweet_text`),
- `app/config.py` (`workflow_enable_auto_posting`).

Timestamps (`datetime.now()`) are modelled as natural numbers (seconds);
successive readings of the clock within one run are non-decreasing, which
appears as explicit hypotheses where a theorem needs it.  Step results
(`Dict[str, Any]`) are a type parameter `ρ`.  The outcome of one awaited
unit of work (value / raised exception / `asyncio.TimeoutError` from
`asyncio.wait_for`) is the inductive `StepOutcome`.
-/

namespace XPostReplicator

/-- `WorkflowStepStatus` from `app/schemas/workflow.py`. -/
inductive WorkflowStepStatus where
  | pending
  | running
  | completed
  | failed
  | timeout
  deriving DecidableEq, Repr

/-- `WorkflowStep` from `app/schemas/workflow.py`; `ρ` is the type of the
`result` payload (`Dict[str, Any]` in the source). -/
structure WorkflowStep (ρ : Type) where
  name : String
  status : WorkflowStepStatus := .pending
  start_time : Option Nat := none
  end_time : Option Nat := none
  duration : Option Int := none
  error : Option String := none
  result : Option ρ := none
  deriving DecidableEq, Repr

/-- `WorkflowResponse` from `app/schemas/workflow.py`. -/
structure WorkflowResponse (ρ : Type) where
  workflow_id : String
  status : WorkflowStepStatus
  steps : List (WorkflowStep ρ)
  total_duration : Option Int := none
  summary : List (String × String) := []
  created_at : Nat
  completed_at : Option Nat := none
  deriving DecidableEq, Repr

/-- Outcome of awaiting one step's unit of work under `asyncio.wait_for`:
it returns a value, raises an exception, or the deadline elapses first. -/
inductive StepOutcome (ρ : Type) where
  | ok (r : ρ)
  | exc (msg : String)
  | timedOut
  deriving DecidableEq, Repr

/-- `step.duration = (step.end_time - step.start_time).total_seconds()`,
guarded by `if step.start_time and step.end_time` as in
`_execute_step_with_timeout`. -/
def computeDuration (st en : Option Nat) : Option Int :=
  match st, en with
  | some s, some e => some ((e : Int) - (s : Int))
  | _, _ => none

/-- First half of `_execute_step_with_timeout`
(`workflow_executor.py` lines 126-128): before awaiting the unit of work
the step is marked `RUNNING` and `start_time` is recorded. -/
def stepBegin {ρ : Type} (s : WorkflowStep ρ) (t : Nat) : WorkflowStep ρ :=
  { s with status := .running, start_time := some t }

/-- Second half of `_execute_step_with_timeout`
(`workflow_executor.py` lines 130-163): the three `try`/`except` branches
recording the outcome of the awaited unit of work. -/
def stepSettle {ρ : Type} (s : WorkflowStep ρ) (o : StepOutcome ρ)
    (timeoutSecs : Nat) (tEnd : Nat) : WorkflowStep ρ :=
  match o with
  | .ok r =>
      { s with status := .completed, result := some r, end_time := some tEnd,
               duration := computeDuration s.start_time (some tEnd) }
  | .timedOut =>
      { s with status := .timeout,
               error := some ("Step timed out after " ++ toString timeoutSecs
                 ++ " seconds"),
               end_time := some tEnd,
               duration := computeDuration s.start_time (some tEnd) }
  | .exc m =>
      { s with status := .failed, error := some m, end_time := some tEnd,
               duration := computeDuration s.start_time (some tEnd) }

/-- One whole `_execute_step_with_timeout` call on a step record:
mark running at `tStart`, then settle the outcome at `tEnd`. -/
def execute_step_with_timeout {ρ : Type} (s : WorkflowStep ρ)
    (o : StepOutcome ρ) (timeoutSecs tStart tEnd : Nat) : WorkflowStep ρ :=
  stepSettle (stepBegin s tStart) o timeoutSecs tEnd

/-- A fresh step record, as built by `WorkflowStep(name=...)`. -/
def mkStep (ρ : Type) (n : String) : WorkflowStep ρ := { name := n }

/-- The fixed step names of `execute_workflow_with_id`
(`workflow_executor.py` lines 55-60). -/
def pipelineStepNames : List String :=
  ["download_tweets", "process_and_classify", "polish_content", "post_tweets"]

/-- The freshly allocated workflow record of `execute_workflow_with_id`
(`workflow_executor.py` lines 52-63). -/
def initWorkflow (ρ : Type) (id : String) (createdAt : Nat) :
    WorkflowResponse ρ :=
  { workflow_id := id
    status := .pending
    steps := pipelineStepNames.map (mkStep ρ)
    summary := []
    created_at := createdAt }

/-- Replace the step record at index `i` of the workflow's step list
(the in-place mutation `workflow.steps[step_index] = ...`). -/
def setStep {ρ : Type} (w : WorkflowResponse ρ) (i : Nat)
    (s : WorkflowStep ρ) : WorkflowResponse ρ :=
  { w with steps := w.steps.set i s }

/-- Workflow-level view of the first half of `_execute_step_with_timeout`:
step `i` is marked running with its start time. -/
def beginStepW {ρ : Type} (w : WorkflowResponse ρ) (i : Nat) (t : Nat) :
    WorkflowResponse ρ :=
  match w.steps.get? i with
  | some s => setStep w i (stepBegin s t)
  | none => w

/-- Workflow-level view of the second half of `_execute_step_with_timeout`:
step `i` records the outcome of its awaited unit of work. -/
def settleStepW {ρ : Type} (w : WorkflowResponse ρ) (i : Nat)
    (o : StepOutcome ρ) (timeoutSecs tEnd : Nat) : WorkflowResponse ρ :=
  match w.steps.get? i with
  | some s => setStep w i (stepSettle s o timeoutSecs tEnd)
  | none => w

/-- Events observable at the boundary of `_execute_step_with_timeout`
calls within one run: the call on step `i` starts / returns. -/
inductive RunEvent where
  | stepStarted (i : Nat)
  | stepReturned (i : Nat)
  deriving DecidableEq, Repr

/-- All inputs that determine one `execute_workflow_with_id` run when the
environment (units of work, clock, exceptions) is resolved:
- `outcomes i`: how step `i`'s awaited unit of work ends;
- `stepTimes i`: the `datetime.now()` readings at the start and at the
  settlement of step `i`;
- `step_timeout`: the per-step budget (`timeout or config.workflow_step_timeout`);
- `posting_timeout`: `config.workflow_posting_timeout`, used for step 4;
- `finish_time`: the `datetime.now()` reading in the final block;
- `fault`: `none` when no exception escapes the sequencing logic itself,
  `some j` when one is raised inside the `try` block after exactly `j`
  `_execute_step_with_timeout` calls have returned (`j = 4`: during the
  final status computation). -/
structure RunInput (ρ : Type) where
  outcomes : Fin 4 → StepOutcome ρ
  stepTimes : Fin 4 → Nat × Nat
  step_timeout : Nat
  posting_timeout : Nat
  finish_time : Nat
  fault : Option (Fin 5) := none

/-- The budget passed for step `i`: `step_timeout` for the first three
steps, `config.workflow_posting_timeout` for `post_tweets`
(`workflow_executor.py` lines 90-94). -/
def stepTimeoutFor {ρ : Type} (inp : RunInput ρ) (i : Fin 4) : Nat :=
  if i.val = 3 then inp.posting_timeout else inp.step_timeout

/-- Number of `_execute_step_with_timeout` calls that return before the
`try` block is left (all 4 when no sequencing fault occurs). -/
def attemptedCount : Option (Fin 5) → Nat
  | none => 4
  | some j => j.val

/-- The step indexes attempted by the `try` block, in source order. -/
def attemptedIndexes (fault : Option (Fin 5)) : List (Fin 4) :=
  ([0, 1, 2, 3] : List (Fin 4)).take (attemptedCount fault)

/-- Drive the Step Executor for the given list of step indexes, in order,
collecting every intermediate workflow state and every call boundary
event, and returning the workflow state after the last call. -/
def runStepsFrom {ρ : Type} (inp : RunInput ρ) (w : WorkflowResponse ρ) :
    List (Fin 4) →
    List (WorkflowResponse ρ) × List RunEvent × WorkflowResponse ρ
  | [] => ([], [], w)
  | i :: rest =>
      let wb := beginStepW w i.val (inp.stepTimes i).1
      let ws := settleStepW wb i.val (inp.outcomes i) (stepTimeoutFor inp i)
        (inp.stepTimes i).2
      let rst := runStepsFrom inp ws rest
      (wb :: ws :: rst.1,
       .stepStarted i.val :: .stepReturned i.val :: rst.2.1,
       rst.2.2)

/-- End of the `try` block of `execute_workflow_with_id`
(`workflow_executor.py` lines 96-104): aggregate status, `completed_at`,
`total_duration`. -/
def finalizeOk {ρ : Type} (w : WorkflowResponse ρ) (t : Nat) :
    WorkflowResponse ρ :=
  { w with
    status := if w.steps.all (fun s => s.status == .completed)
      then .completed else .failed
    completed_at := some t
    total_duration := some ((t : Int) - (w.created_at : Int)) }

/-- The `except` handler of `execute_workflow_with_id`
(`workflow_executor.py` lines 108-111): force `FAILED`, set
`completed_at`; `total_duration` is not set there. -/
def finalizeFault {ρ : Type} (w : WorkflowResponse ρ) (t : Nat) :
    WorkflowResponse ρ :=
  { w with status := .failed, completed_at := some t }

/-- One complete `execute_workflow_with_id` run, as the sequence of
workflow states the (single) registry record passes through, plus the
step-call boundary events.  State 0 is the freshly inserted record
(still `PENDING`, already visible via `self.workflows[workflow_id]`),
state 1 is after `workflow.status = RUNNING`; then two states per
attempted step; the last state is after the final block (or after the
`except` handler when `inp.fault` is `some`). -/
def execute_workflow_with_id {ρ : Type} (id : String) (createdAt : Nat)
    (inp : RunInput ρ) : List (WorkflowResponse ρ) × List RunEvent :=
  let w0 := initWorkflow ρ id createdAt
  let w1 := { w0 with status := .running }
  let r := runStepsFrom inp w1 (attemptedIndexes inp.fault)
  let wFinal := match inp.fault with
    | none => finalizeOk r.2.2 inp.finish_time
    | some _ => finalizeFault r.2.2 inp.finish_time
  (w0 :: w1 :: r.1 ++ [wFinal], r.2.1)

/-- The states a run's registry record passes through. -/
def runTrace {ρ : Type} (id : String) (createdAt : Nat) (inp : RunInput ρ) :
    List (WorkflowResponse ρ) :=
  (execute_workflow_with_id id createdAt inp).1

/-- The step-call boundary events of a run, in order. -/
def runEvents {ρ : Type} (id : String) (createdAt : Nat) (inp : RunInput ρ) :
    List RunEvent :=
  (execute_workflow_with_id id createdAt inp).2

/-- The final state of the run: what `get_workflow_status` returns once
the background task has finished. -/
def runResult {ρ : Type} (id : String) (createdAt : Nat) (inp : RunInput ρ) :
    WorkflowResponse ρ :=
  let w0 := initWorkflow ρ id createdAt
  let w1 := { w0 with status := .running }
  let r := runStepsFrom inp w1 (attemptedIndexes inp.fault)
  match inp.fault with
  | none => finalizeOk r.2.2 inp.finish_time
  | some _ => finalizeFault r.2.2 inp.finish_time

/-! ### Workflow registry: status lookup and age-based cleanup -/

/-- `WorkflowExecutor.get_workflow_status`: `self.workflows.get(workflow_id)`
over the registry modelled as an association list. -/
def get_workflow_status {ρ : Type}
    (workflows : List (String × WorkflowResponse ρ)) (id : String) :
    Option (WorkflowResponse ρ) :=
  (workflows.find? (fun p => p.1 == id)).map Prod.snd

/-- Hour-of-day of a timestamp counted in seconds (`datetime.hour`). -/
def hourOfDay (t : Nat) : Nat := t / 3600 % 24

/-- `datetime.replace(hour=h)`: keeps the date and the sub-hour part,
replaces the hour-of-day; raises `ValueError` unless `0 <= h <= 23`. -/
def replaceHour (t : Nat) (h : Int) : Except String Nat :=
  if h < 0 ∨ 23 < h then .error "ValueError: hour must be in 0..23"
  else .ok ((t : Int) - (hourOfDay t : Int) * 3600 + h * 3600).toNat

/-- `WorkflowExecutor.cleanup_old_workflows` (`workflow_executor.py`
lines 482-494): computes
`cutoff_time = datetime.now().replace(hour=datetime.now().hour - max_age_hours)`
and deletes every registry entry whose `created_at < cutoff_time`.
The `replace` call is the source's hour-of-day arithmetic; when it raises,
the exception propagates and no entry is removed. -/
def cleanup_old_workflows {ρ : Type} (now : Nat) (max_age_hours : Nat)
    (workflows : List (String × WorkflowResponse ρ)) :
    Except String (List (String × WorkflowResponse ρ)) :=
  match replaceHour now ((hourOfDay now : Int) - (max_age_hours : Int)) with
  | .error e => .error e
  | .ok cutoff => .ok (workflows.filter (fun p => ¬ p.2.created_at < cutoff))

/-! ### Persistence layer: tweets and the CRUD queries the steps use -/

/-- A row of the `tweets` table (`app/database/models.py`); `tweet_id`
carries a UNIQUE constraint in the schema.  `polished_text` is nullable. -/
structure Tweet where
  tweet_id : String
  username : String
  original_text : String
  polished_text : Option String := none
  tweet_type : Nat := 1
  status : String := "downloaded"
  created_at : Nat := 0
  posted_at : Option Nat := none
  deriving DecidableEq, Repr

/-- Python truthiness of an `Optional[str]`: `None` and `""` are falsy. -/
def pyTruthyStr : Option String → Bool
  | none => false
  | some s => !(s == "")

/-- Python `a or b` on an `Optional[str]` and a `str`. -/
def pyOrStr (a : Option String) (b : String) : String :=
  match a with
  | some s => if s == "" then b else s
  | none => b

/-- `TweetCRUD.get_tweets_by_username` (`crud.py` lines 74-87, the later
definition in the class body, which is the one Python keeps): filter by
username, optionally by status, order by `created_at` descending, then
apply the limit. -/
def get_tweets_by_username (db : List Tweet) (username : String)
    (status : Option String := none) (limit : Option Nat := none) :
    List Tweet :=
  let q1 := db.filter (fun t => t.username == username)
  let q2 : List Tweet := match status with
    | some s => q1.filter (fun t => t.status == s)
    | none => q1
  let q3 := q2.insertionSort (fun a b => b.created_at ≤ a.created_at)
  match limit with
  | some n => q3.take n
  | none => q3

/-- Python's builtin `max(xs, key=k)`: the first element attaining the
maximal key (later elements replace the running maximum only on strict
increase); `None` stands for the `ValueError` on an empty sequence. -/
def pyMaxBy (k : Tweet → Nat) : List Tweet → Option Tweet
  | [] => none
  | t :: ts => some (ts.foldl (fun acc x => if k acc < k x then x else acc) t)

/-- `TweetCRUD.update_tweet(tweet_id, updates)` applied to the first row
matching `tweet_id` (via `get_tweet_by_tweet_id`'s `.first()`), with the
field assignments performed by `upd`; no row matching is a no-op. -/
def update_tweet (db : List Tweet) (tid : String) (upd : Tweet → Tweet) :
    List Tweet :=
  match db with
  | [] => []
  | t :: ts =>
      if t.tweet_id == tid then upd t :: ts
      else t :: update_tweet ts tid upd

/-! ### Step 3: `_polish_content_step` and the content polisher -/

/-- How one `generate_response` call inside
`ContentPolisher.polish_tweet_text` ends: a rewritten text, a
`UnicodeEncodeError`, or any other exception. -/
inductive GenOutcome where
  | ok (s : String)
  | unicodeError (m : String)
  | failure (m : String)
  deriving DecidableEq, Repr

/-- The 280-character guard of `polish_tweet_text`
(`content_polisher.py` lines 35-36). -/
def truncate280 (s : String) : String :=
  if 280 < s.length then (s.take 277).push '.' |>.push '.' |>.push '.' else s

/-- `ContentPolisher.polish_tweet_text` (`content_polisher.py`
lines 17-47): returns the (truncated) rewritten text on success, the
original text on `UnicodeEncodeError`, and `None` on any other
exception. -/
def polish_tweet_text (g : GenOutcome) (original_text : String) :
    Option String :=
  match g with
  | .ok s => some (truncate280 s)
  | .unicodeError _ => some original_text
  | .failure _ => none

/-- `WorkflowExecutor._polish_content_step` (`workflow_executor.py`
lines 282-326): for every tweet of `username` with status `"processed"`,
when its `polished_text` is not truthy, call the polisher on its original
text; store the rewritten text when the call returns a truthy string, and
fall back to storing the original text otherwise; either way the tweet is
marked `"polished"` and counted.  `gen t` resolves the polisher call for
tweet `t`.  Returns the updated store and the `polished_count`.
`polishLoopBody` is the body of the `for tweet in tweets` loop. -/
def polishLoopBody (gen : Tweet → GenOutcome) (acc : List Tweet × Nat)
    (t : Tweet) : List Tweet × Nat :=
  if pyTruthyStr t.polished_text then acc
  else
    let polished := polish_tweet_text (gen t) t.original_text
    if pyTruthyStr polished then
      (update_tweet acc.1 t.tweet_id
        (fun r => { r with polished_text := polished,
                           status := "polished" }),
       acc.2 + 1)
    else
      (update_tweet acc.1 t.tweet_id
        (fun r => { r with polished_text := some t.original_text,
                           status := "polished" }),
       acc.2 + 1)

def polish_content_step (db : List Tweet) (username : String)
    (gen : Tweet → GenOutcome) : List Tweet × Nat :=
  let tweets := get_tweets_by_username db username (some "processed") none
  tweets.foldl (polishLoopBody gen) (db, 0)

/-! ### Step 4: `_post_tweets_step` -/

/-- The dict returned by `_post_tweets_step`. -/
structure PostResult where
  posted_count : Nat
  message : String
  published_tweet_id : Option String := none
  original_tweet_id : Option String := none
  deriving DecidableEq, Repr

deriving instance DecidableEq for Except

/-- How the `client.create_tweet` call ends: a response carrying the new
tweet id, a response with no data, or one of the `tweepy` exceptions
handled by the step. -/
inductive PublishOutcome where
  | success (newId : String)
  | noData
  | forbidden (m : String)
  | unauthorized (m : String)
  | tooManyRequests (m : String)
  | badRequest (m : String)
  | failure (m : String)
  deriving DecidableEq, Repr

/-- The eligibility filter of `_post_tweets_step` (`workflow_executor.py`
line 353): `t.polished_text and t.status in ['polished', 'downloaded']`. -/
def isEligibleForPost (t : Tweet) : Bool :=
  pyTruthyStr t.polished_text &&
    (t.status == "polished" || t.status == "downloaded")

/-- The `crud.update_tweet(latest_tweet.tweet_id, {"status": "published",
"posted_at": datetime.now()})` call of `_post_tweets_step`. -/
def markPublished (now : Nat) (t : Tweet) : Tweet :=
  { t with status := "published", posted_at := some now }

/-- Everything observable about one `_post_tweets_step` call: the value
returned or the exception raised, the persistence store afterwards, and
the text handed to `client.create_tweet` (`none` when no publish call was
made). -/
structure PostStepOutput where
  result : Except String PostResult
  db : List Tweet
  publishedText : Option String
  deriving DecidableEq, Repr

/-- `WorkflowExecutor._post_tweets_step` (`workflow_executor.py`
lines 328-476): no-op when auto posting is disabled; otherwise query the
50 most recent tweets of `username`, filter the eligible ones, pick the
one with maximal `created_at` (`max(..., key=lambda t: t.created_at)`),
publish its text, and on success mark that row published; the `tweepy`
exception handlers re-raise taxonomy-labelled messages. -/
def post_tweets_step (autoPosting : Bool) (db : List Tweet)
    (username : String) (publish : PublishOutcome) (now : Nat) :
    PostStepOutput :=
  if !autoPosting then
    ⟨.ok { posted_count := 0, message := "Auto posting disabled" }, db, none⟩
  else
    let tweets := get_tweets_by_username db username none (some 50)
    let polished_tweets := tweets.filter isEligibleForPost
    match pyMaxBy (fun t => t.created_at) polished_tweets with
    | none =>
        ⟨.ok { posted_count := 0,
               message := "No polished tweets found to post" }, db, none⟩
    | some latest_tweet =>
        let text_to_post :=
          pyOrStr latest_tweet.polished_text latest_tweet.original_text
        match publish with
        | .success newId =>
            ⟨.ok { posted_count := 1,
                   message := "Posted polished tweet to destination account",
                   published_tweet_id := some newId,
                   original_tweet_id := some latest_tweet.tweet_id },
             update_tweet db latest_tweet.tweet_id (markPublished now),
             some text_to_post⟩
        | .noData =>
            ⟨.error "No response data from Twitter API", db, some text_to_post⟩
        | .forbidden m =>
            ⟨.error ("403 Forbidden - You are not permitted to perform this action. Error: " ++ m),
             db, some text_to_post⟩
        | .unauthorized m =>
            ⟨.error ("401 Unauthorized - Check your API credentials. Error: " ++ m),
             db, some text_to_post⟩
        | .tooManyRequests _ =>
            ⟨.error "Rate limit exceeded while publishing tweet. Please try again later.",
             db, some text_to_post⟩
        | .badRequest m =>
            ⟨.error ("Bad Request - Invalid tweet content. Error: " ++ m),
             db, some text_to_post⟩
        | .failure m => ⟨.error m, db, some text_to_post⟩

/-! ## Concrete instances used by witnesses and counterexamples -/

/-- A concrete run input used to instantiate hypothetical theorems. -/
def sampleRunInput : RunInput Unit :=
  { outcomes := fun _ => .ok ()
    stepTimes := fun i => (10 + 2 * i.val, 11 + 2 * i.val)
    step_timeout := 60
    posting_timeout := 1200
    finish_time := 20
    fault := none }

/-- The data-model invariant on one step record: `result` and `error`
never both set; `duration` present iff both timestamps are; `duration`
non-negative. -/
def StepInv {ρ : Type} (s : WorkflowStep ρ) : Prop :=
  (¬ (s.result.isSome = true ∧ s.error.isSome = true)) ∧
  (s.duration.isSome = true ↔
    (s.start_time.isSome = true ∧ s.end_time.isSome = true)) ∧
  (∀ d : Int, s.duration = some d → 0 ≤ d)

/-- The single eligible item of the C6 counterexample store: eligible
(rewritten text present, status polished, never posted) but older than
fifty other rows of the same target. -/
def eligibleOldTweet : Tweet :=
  { tweet_id := "t0", username := "u", original_text := "orig",
    polished_text := some "polished text", status := "polished",
    created_at := 0 }

/-- The fifty newer, already published rows of the C6 counterexample
store. -/
def newerPublishedTweet (i : Nat) : Tweet :=
  { tweet_id := "p" ++ toString i, username := "u", original_text := "x",
    polished_text := some "x", status := "published",
    created_at := 51 - i }

/-- A store holding fifty-one rows for the target: fifty newer published
ones and one older eligible one. -/
def counterexampleStore : List Tweet :=
  (List.range 50).map newerPublishedTweet ++ [eligibleOldTweet]

/-- A downloaded-and-classified row lacking rewritten text, used to
instantiate the C7 theorem. -/
def processedTweet : Tweet :=
  { tweet_id := "a", username := "u", original_text := "hello",
    status := "processed", created_at := 3 }

/-- A rewrite collaborator that fails on every item. -/
def alwaysFailingGen : Tweet → GenOutcome := fun _ => .failure "api down"

/-! ## Helper lemmas about the pipeline controller -/

/-- Workflow-level fields (everything except the contents of the step
records) that `_execute_step_with_timeout` never touches. -/
def SameMeta {ρ : Type} (w' w : WorkflowResponse ρ) : Prop :=
  w'.workflow_id = w.workflow_id ∧ w'.status = w.status ∧
  w'.total_duration = w.total_duration ∧ w'.completed_at = w.completed_at ∧
  w'.created_at = w.created_at ∧
  w'.steps.map (fun s => s.name) = w.steps.map (fun s => s.name)

theorem sameMeta_refl {ρ : Type} (w : WorkflowResponse ρ) : SameMeta w w :=
  ⟨rfl, rfl, rfl, rfl, rfl, rfl⟩

theorem sameMeta_trans {ρ : Type} {w₁ w₂ w₃ : WorkflowResponse ρ}
    (h₁ : SameMeta w₁ w₂) (h₂ : SameMeta w₂ w₃) : SameMeta w₁ w₃ := by
  obtain ⟨a1, a2, a3, a4, a5, a6⟩ := h₁
  obtain ⟨b1, b2, b3, b4, b5, b6⟩ := h₂
  exact ⟨a1.trans b1, a2.trans b2, a3.trans b3, a4.trans b4, a5.trans b5,
    a6.trans b6⟩

theorem map_name_set {ρ : Type} :
    ∀ (l : List (WorkflowStep ρ)) (i : Nat) (s s' : WorkflowStep ρ),
      l.get? i = some s → s'.name = s.name →
      (l.set i s').map (fun x => x.name) = l.map (fun x => x.name)
  | [], _, _, _, h, _ => by simp at h
  | t :: ts, 0, s, s', h, hn => by
      simp only [List.get?] at h
      injection h with h
      simp [List.set, hn, h]
  | t :: ts, i + 1, s, s', h, hn => by
      simp only [List.get?] at h
      simp [List.set, map_name_set ts i s s' h hn]

theorem sameMeta_beginStepW {ρ : Type} (w : WorkflowResponse ρ) (i t : Nat) :
    SameMeta (beginStepW w i t) w := by
  unfold beginStepW
  cases h : w.steps.get? i with
  | none => exact sameMeta_refl w
  | some s =>
      refine ⟨rfl, rfl, rfl, rfl, rfl, ?_⟩
      exact map_name_set w.steps i s _ h rfl

theorem sameMeta_settleStepW {ρ : Type} (w : WorkflowResponse ρ) (i : Nat)
    (o : StepOutcome ρ) (tmo tEnd : Nat) :
    SameMeta (settleStepW w i o tmo tEnd) w := by
  unfold settleStepW
  cases h : w.steps.get? i with
  | none => exact sameMeta_refl w
  | some s =>
      refine ⟨rfl, rfl, rfl, rfl, rfl, ?_⟩
      refine map_name_set w.steps i s _ h ?_
      cases o <;> rfl

theorem runStepsFrom_meta {ρ : Type} (inp : RunInput ρ) :
    ∀ (idxs : List (Fin 4)) (w : WorkflowResponse ρ),
      (∀ w' ∈ (runStepsFrom inp w idxs).1, SameMeta w' w) ∧
      SameMeta (runStepsFrom inp w idxs).2.2 w
  | [], w => by simp [runStepsFrom, sameMeta_refl]
  | i :: rest, w => by
      have hb := sameMeta_beginStepW w i.val (inp.stepTimes i).1
      have hs := sameMeta_settleStepW (beginStepW w i.val (inp.stepTimes i).1)
        i.val (inp.outcomes i) (stepTimeoutFor inp i) (inp.stepTimes i).2
      have hws := sameMeta_trans hs hb
      have ih := runStepsFrom_meta inp rest
        (settleStepW (beginStepW w i.val (inp.stepTimes i).1) i.val
          (inp.outcomes i) (stepTimeoutFor inp i) (inp.stepTimes i).2)
      constructor
      · intro w' hw'
        simp only [runStepsFrom, List.mem_cons] at hw'
        rcases hw' with h | h | h
        · exact h ▸ hb
        · exact h ▸ hws
        · exact sameMeta_trans (ih.1 w' h) hws
      · exact sameMeta_trans ih.2 hws

/-- With no sequencing fault, the four step records of the final workflow
state are exactly the Step Executor's output on the four fresh records,
with the outcomes, time stamps and budgets of the run. -/
theorem runResult_steps_noFault {ρ : Type} (id : String) (c : Nat)
    (inp : RunInput ρ) (h : inp.fault = none) :
    (runResult id c inp).steps =
      [execute_step_with_timeout (mkStep ρ "download_tweets") (inp.outcomes 0)
         inp.step_timeout (inp.stepTimes 0).1 (inp.stepTimes 0).2,
       execute_step_with_timeout (mkStep ρ "process_and_classify")
         (inp.outcomes 1) inp.step_timeout (inp.stepTimes 1).1
         (inp.stepTimes 1).2,
       execute_step_with_timeout (mkStep ρ "polish_content") (inp.outcomes 2)
         inp.step_timeout (inp.stepTimes 2).1 (inp.stepTimes 2).2,
       execute_step_with_timeout (mkStep ρ "post_tweets") (inp.outcomes 3)
         inp.posting_timeout (inp.stepTimes 3).1 (inp.stepTimes 3).2] := by
  have e0 : ((0 : Fin 4) : Nat) = 0 := rfl
  have e1 : ((1 : Fin 4) : Nat) = 1 := rfl
  have e2 : ((2 : Fin 4) : Nat) = 2 := rfl
  have e3 : ((3 : Fin 4) : Nat) = 3 := rfl
  simp [runResult, h, attemptedIndexes, attemptedCount, runStepsFrom,
    beginStepW, settleStepW, setStep, initWorkflow, pipelineStepNames,
    mkStep, execute_step_with_timeout, stepTimeoutFor, finalizeOk,
    e0, e1, e2, e3]

/-- With no sequencing fault, the final block of the controller runs: the
aggregate status rule is applied to the step list, `completed_at` and
`total_duration` are set. -/
theorem runResult_final_noFault {ρ : Type} (id : String) (c : Nat)
    (inp : RunInput ρ) (h : inp.fault = none) :
    (runResult id c inp).status =
      (if (runResult id c inp).steps.all (fun s => s.status == .completed)
        then .completed else .failed) ∧
    (runResult id c inp).completed_at = some inp.finish_time ∧
    (runResult id c inp).total_duration =
      some ((inp.finish_time : Int) - (c : Int)) := by
  have hmeta := (runStepsFrom_meta inp (attemptedIndexes none)
    { initWorkflow ρ id c with status := .running }).2
  unfold SameMeta at hmeta
  obtain ⟨m1, m2, m3, m4, m5, m6⟩ := hmeta
  simp only [initWorkflow] at m5
  refine ⟨?_, ?_, ?_⟩ <;> simp only [runResult, h] <;>
    simp [finalizeOk, initWorkflow, m5]

/-- With a sequencing fault, the `except` handler runs: status is forced
to `FAILED`, `completed_at` is set, `total_duration` stays unset. -/
theorem runResult_fault {ρ : Type} (id : String) (c : Nat)
    (inp : RunInput ρ) (j : Fin 5) (h : inp.fault = some j) :
    (runResult id c inp).status = .failed ∧
    (runResult id c inp).completed_at = some inp.finish_time ∧
    (runResult id c inp).total_duration = none := by
  have hmeta := (runStepsFrom_meta inp (attemptedIndexes (some j))
    { initWorkflow ρ id c with status := .running }).2
  unfold SameMeta at hmeta
  obtain ⟨m1, m2, m3, m4, m5, m6⟩ := hmeta
  simp only [initWorkflow] at m3
  refine ⟨?_, ?_, ?_⟩ <;> simp only [runResult, h] <;>
    simp [finalizeFault, initWorkflow, m3]

/-- The status a settled step record carries, by outcome. -/
theorem stepSettle_status {ρ : Type} (s : WorkflowStep ρ)
    (o : StepOutcome ρ) (tmo tEnd : Nat) :
    (stepSettle s o tmo tEnd).status =
      (match o with
        | .ok _ => .completed
        | .timedOut => .timeout
        | .exc _ => .failed) := by
  cases o <;> rfl

/-- Case enumeration for a step index. -/
theorem fin4_eq_literal (i : Fin 4) : i = 0 ∨ i = 1 ∨ i = 2 ∨ i = 3 := by
  have hv : i.val = 0 ∨ i.val = 1 ∨ i.val = 2 ∨ i.val = 3 := by omega
  rcases hv with hv | hv | hv | hv
  · exact Or.inl (Fin.ext hv)
  · exact Or.inr (Or.inl (Fin.ext hv))
  · exact Or.inr (Or.inr (Or.inl (Fin.ext hv)))
  · exact Or.inr (Or.inr (Or.inr (Fin.ext hv)))

/-! ## Claim theorems -/

/-- C4: for every Step Executor invocation on a pending step record,
exactly one of three outcomes is recorded — a returned value gives
`completed` with `result` set and `error` unset; an elapsed deadline
gives `timeout` with an error message naming the deadline; a raised
exception gives `failed` with the failure message — and in all three
outcomes `start_time` and `end_time` are set and `duration` is computed
from the two timestamps. -/
theorem C4_step_executor_three_outcomes {ρ : Type} (n : String)
    (o : StepOutcome ρ) (tmo tStart tEnd : Nat) :
    (execute_step_with_timeout (mkStep ρ n) o tmo tStart tEnd).status =
      (match o with
        | .ok _ => .completed | .timedOut => .timeout | .exc _ => .failed) ∧
    (execute_step_with_timeout (mkStep ρ n) o tmo tStart tEnd).result =
      (match o with | .ok r => some r | _ => none) ∧
    (execute_step_with_timeout (mkStep ρ n) o tmo tStart tEnd).error =
      (match o with
        | .ok _ => none
        | .timedOut => some ("Step timed out after " ++ toString tmo
            ++ " seconds")
        | .exc m => some m) ∧
    (execute_step_with_timeout (mkStep ρ n) o tmo tStart tEnd).start_time =
      some tStart ∧
    (execute_step_with_timeout (mkStep ρ n) o tmo tStart tEnd).end_time =
      some tEnd ∧
    (execute_step_with_timeout (mkStep ρ n) o tmo tStart tEnd).duration =
      some ((tEnd : Int) - (tStart : Int)) := by
  cases o <;>
    simp [execute_step_with_timeout, stepBegin, stepSettle, mkStep,
      computeDuration]

/-- C1: after all four steps have been attempted, the pipeline status is
`completed` if and only if every one of the four step records has status
`completed`; a timeout outcome on any individual step yields pipeline
status `failed` while that step keeps status `timeout`, for every
combination of per-step outcomes. -/
theorem C1_aggregate_status_rule {ρ : Type} (id : String) (c : Nat)
    (inp : RunInput ρ) (h : inp.fault = none) :
    ((runResult id c inp).status = .completed ↔
      ∀ s ∈ (runResult id c inp).steps, s.status = .completed) ∧
    (∀ i : Fin 4, inp.outcomes i = .timedOut →
      (runResult id c inp).status = .failed ∧
      ∃ s, (runResult id c inp).steps.get? i.val = some s ∧
        s.status = .timeout) := by
  have hfin := runResult_final_noFault id c inp h
  have hsteps := runResult_steps_noFault id c inp h
  have hiff : (runResult id c inp).status = .completed ↔
      (runResult id c inp).steps.all (fun s => s.status == .completed)
        = true := by
    rw [hfin.1]
    cases hall : (runResult id c inp).steps.all
        (fun s => s.status == .completed) <;> simp [hall]
  constructor
  · rw [hiff, List.all_eq_true]
    constructor
    · intro ha s hs
      simpa using ha s hs
    · intro ha s hs
      simpa using ha s hs
  · intro i hi
    have e0 : ((0 : Fin 4) : Nat) = 0 := rfl
    have e1 : ((1 : Fin 4) : Nat) = 1 := rfl
    have e2 : ((2 : Fin 4) : Nat) = 2 := rfl
    have e3 : ((3 : Fin 4) : Nat) = 3 := rfl
    rcases fin4_eq_literal i with rfl | rfl | rfl | rfl <;>
    · have hne : ¬ ((runResult id c inp).status = .completed) := by
        rw [hiff, List.all_eq_true]
        intro ha
        rw [hsteps] at ha
        simp_all [execute_step_with_timeout, stepSettle, stepBegin, mkStep]
      refine ⟨?_, ?_⟩
      · rw [hfin.1] at hne ⊢
        cases hall : (runResult id c inp).steps.all
            (fun s => s.status == .completed) <;> simp_all
      · rw [hsteps]
        simp [execute_step_with_timeout, stepSettle, stepBegin, mkStep, hi,
          e0, e1, e2, e3]

/-- C2: within one run all four steps are attempted unconditionally in
the fixed order — the boundary events of the four Step Executor calls are
exactly start/return of step 0, then step 1, then step 2, then step 3,
for every combination of outcomes — and every step ends in a terminal
status, so no earlier failure or timeout prevents a later step. -/
theorem C2_steps_run_unconditionally_in_order {ρ : Type} (id : String)
    (c : Nat) (inp : RunInput ρ) (h : inp.fault = none) :
    runEvents id c inp =
      [.stepStarted 0, .stepReturned 0, .stepStarted 1, .stepReturned 1,
       .stepStarted 2, .stepReturned 2, .stepStarted 3, .stepReturned 3] ∧
    ∀ s ∈ (runResult id c inp).steps,
      s.status = .completed ∨ s.status = .failed ∨ s.status = .timeout := by
  constructor
  · have e0 : ((0 : Fin 4) : Nat) = 0 := rfl
    have e1 : ((1 : Fin 4) : Nat) = 1 := rfl
    have e2 : ((2 : Fin 4) : Nat) = 2 := rfl
    have e3 : ((3 : Fin 4) : Nat) = 3 := rfl
    simp [runEvents, execute_workflow_with_id, h, attemptedIndexes,
      attemptedCount, runStepsFrom, e0, e1, e2, e3]
  · intro s hs
    rw [runResult_steps_noFault id c inp h] at hs
    simp only [List.mem_cons, List.not_mem_nil, or_false] at hs
    rcases hs with rfl | rfl | rfl | rfl
    · cases inp.outcomes 0 <;>
        simp [execute_step_with_timeout, stepSettle, stepBegin, mkStep]
    · cases inp.outcomes 1 <;>
        simp [execute_step_with_timeout, stepSettle, stepBegin, mkStep]
    · cases inp.outcomes 2 <;>
        simp [execute_step_with_timeout, stepSettle, stepBegin, mkStep]
    · cases inp.outcomes 3 <;>
        simp [execute_step_with_timeout, stepSettle, stepBegin, mkStep]

/-- Witness for C1 at a concrete run input. -/
theorem C1_aggregate_status_rule_witness :
    ((runResult "w" 5 sampleRunInput).status = .completed ↔
      ∀ s ∈ (runResult "w" 5 sampleRunInput).steps, s.status = .completed) ∧
    (∀ i : Fin 4, sampleRunInput.outcomes i = .timedOut →
      (runResult "w" 5 sampleRunInput).status = .failed ∧
      ∃ s, (runResult "w" 5 sampleRunInput).steps.get? i.val = some s ∧
        s.status = .timeout) :=
  C1_aggregate_status_rule "w" 5 sampleRunInput rfl

/-- Witness for C2 at a concrete run input. -/
theorem C2_steps_run_unconditionally_in_order_witness :
    runEvents "w" 5 sampleRunInput =
      [.stepStarted 0, .stepReturned 0, .stepStarted 1, .stepReturned 1,
       .stepStarted 2, .stepReturned 2, .stepStarted 3, .stepReturned 3] ∧
    ∀ s ∈ (runResult "w" 5 sampleRunInput).steps,
      s.status = .completed ∨ s.status = .failed ∨ s.status = .timeout :=
  C2_steps_run_unconditionally_in_order "w" 5 sampleRunInput rfl

/-- C5: step-level failures are absorbed by the Step Executor — every
outcome, including a raised exception or a timeout, still yields a normal
return, so with no sequencing fault the controller reaches the aggregate
status rule and sets `completed_at` and `total_duration` — and if an
exception escapes the sequencing logic itself the controller catches it,
forces pipeline status `failed` and sets `completed_at`; in every case
the final status is terminal, never left at `running` or `pending`. -/
theorem C5_failures_absorbed_controller_catches {ρ : Type} (id : String)
    (c : Nat) (inp : RunInput ρ) :
    ((runResult id c inp).status = .completed ∨
      (runResult id c inp).status = .failed) ∧
    (runResult id c inp).completed_at = some inp.finish_time ∧
    (inp.fault = none →
      (runResult id c inp).total_duration =
        some ((inp.finish_time : Int) - (c : Int))) ∧
    (∀ j : Fin 5, inp.fault = some j →
      (runResult id c inp).status = .failed) := by
  rcases h : inp.fault with _ | j
  · have hfin := runResult_final_noFault id c inp h
    refine ⟨?_, hfin.2.1, fun _ => hfin.2.2,
      fun j hj => Option.noConfusion hj⟩
    rw [hfin.1]
    cases hall : (runResult id c inp).steps.all
        (fun s => s.status == .completed) <;> simp
  · have hfin := runResult_fault id c inp j h
    exact ⟨Or.inr hfin.1, hfin.2.1,
      fun hn => Option.noConfusion hn, fun _ _ => hfin.1⟩

/-- Witness for C5 at a concrete run input. -/
theorem C5_failures_absorbed_controller_catches_witness :
    ((runResult "w" 5 sampleRunInput).status = .completed ∨
      (runResult "w" 5 sampleRunInput).status = .failed) ∧
    (runResult "w" 5 sampleRunInput).completed_at =
      some sampleRunInput.finish_time ∧
    (sampleRunInput.fault = none →
      (runResult "w" 5 sampleRunInput).total_duration =
        some ((sampleRunInput.finish_time : Int) - ((5 : Nat) : Int))) ∧
    (∀ j : Fin 5, sampleRunInput.fault = some j →
      (runResult "w" 5 sampleRunInput).status = .failed) :=
  C5_failures_absorbed_controller_catches "w" 5 sampleRunInput

/-- C3 (code bug): `cleanup_old_workflows` is meant to evict exactly the
records older than `now - max_age`, idempotently and safely; but the
source computes the cutoff as
`datetime.now().replace(hour=datetime.now().hour - max_age_hours)`, and
since the hour-of-day is always below 24, with the default
`max_age_hours = 24` the `replace` call raises `ValueError` at every
possible current time, so the sweep never removes anything. -/
theorem C3_cleanup_default_age_always_raises {ρ : Type} (now : Nat)
    (ws : List (String × WorkflowResponse ρ)) :
    cleanup_old_workflows now 24 ws =
      .error "ValueError: hour must be in 0..23" := by
  have h24 : hourOfDay now < 24 := Nat.mod_lt _ (by decide)
  simp [cleanup_old_workflows, replaceHour, h24]

/-- C10: when the auto-posting configuration flag is disabled, the
publish step makes no call to the publish collaborator, leaves the store
untouched, and returns a no-op result with `posted_count = 0`, so the
Step Executor records the step as `completed`. -/
theorem C10_auto_posting_disabled_noop (db : List Tweet) (u : String)
    (p : PublishOutcome) (now : Nat) (tmo t1 t2 : Nat) :
    post_tweets_step false db u p now =
      ⟨.ok { posted_count := 0, message := "Auto posting disabled" },
       db, none⟩ ∧
    (execute_step_with_timeout (mkStep PostResult "post_tweets")
        (.ok { posted_count := 0, message := "Auto posting disabled" })
        tmo t1 t2).status = .completed :=
  ⟨rfl, rfl⟩

/-- C9: at every observable point of a run before its last transition the
registry record (returned by a status query on the workflow identifier)
has status `pending` or `running`; and once the background run has
finished, the status query returns a record with a terminal status whose
step list has exactly four entries carrying the fixed names in the fixed
order. -/
theorem C9_async_status_lifecycle {ρ : Type} (id : String) (c : Nat)
    (inp : RunInput ρ) :
    (∀ w ∈ (runTrace id c inp).dropLast,
      w.status = .pending ∨ w.status = .running) ∧
    (runTrace id c inp).getLast? = some (runResult id c inp) ∧
    ((runResult id c inp).status = .completed ∨
      (runResult id c inp).status = .failed) ∧
    (runResult id c inp).steps.map (fun s => s.name) = pipelineStepNames ∧
    (runResult id c inp).steps.length = 4 ∧
    (∀ w : WorkflowResponse ρ, get_workflow_status [(id, w)] id = some w) := by
  have hmeta := runStepsFrom_meta inp (attemptedIndexes inp.fault)
    { initWorkflow ρ id c with status := .running }
  have hshape : runTrace id c inp =
      ((initWorkflow ρ id c) ::
        { initWorkflow ρ id c with status := .running } ::
        (runStepsFrom inp { initWorkflow ρ id c with status := .running }
          (attemptedIndexes inp.fault)).1) ++ [runResult id c inp] := by
    rcases h : inp.fault with _ | j <;>
      simp [runTrace, execute_workflow_with_id, runResult, h]
  refine ⟨?_, ?_, ?_, ?_, ?_, ?_⟩
  · intro w hw
    rw [hshape, List.dropLast_concat] at hw
    simp only [List.mem_cons] at hw
    rcases hw with rfl | rfl | hw
    · exact Or.inl rfl
    · exact Or.inr rfl
    · have hsm := hmeta.1 w hw
      unfold SameMeta at hsm
      exact Or.inr hsm.2.1
  · rw [hshape]
    exact List.getLast?_concat _
  · rcases h : inp.fault with _ | j
    · have hfin := runResult_final_noFault id c inp h
      rw [hfin.1]
      cases hall : (runResult id c inp).steps.all
          (fun s => s.status == .completed) <;> simp
    · exact Or.inr (runResult_fault id c inp j h).1
  · have hm2 := hmeta.2
    unfold SameMeta at hm2
    obtain ⟨_, _, _, _, _, hnames⟩ := hm2
    have hres : (runResult id c inp).steps =
        (runStepsFrom inp { initWorkflow ρ id c with status := .running }
          (attemptedIndexes inp.fault)).2.2.steps := by
      rcases h : inp.fault with _ | j <;>
        simp [runResult, h, finalizeOk, finalizeFault]
    rw [hres, hnames]
    simp [initWorkflow, mkStep, pipelineStepNames]
  · have hm2 := hmeta.2
    unfold SameMeta at hm2
    obtain ⟨_, _, _, _, _, hnames⟩ := hm2
    have hres : (runResult id c inp).steps =
        (runStepsFrom inp { initWorkflow ρ id c with status := .running }
          (attemptedIndexes inp.fault)).2.2.steps := by
      rcases h : inp.fault with _ | j <;>
        simp [runResult, h, finalizeOk, finalizeFault]
    have hmap : (runResult id c inp).steps.map (fun s => s.name) =
        pipelineStepNames := by
      rw [hres, hnames]
      simp [initWorkflow, mkStep, pipelineStepNames]
    have hlen := congrArg List.length hmap
    simpa [pipelineStepNames] using hlen
  · intro w
    simp [get_workflow_status]

/-- Witness for C9 at a concrete run input. -/
theorem C9_async_status_lifecycle_witness :
    (∀ w ∈ (runTrace "w" 5 sampleRunInput).dropLast,
      w.status = .pending ∨ w.status = .running) ∧
    (runTrace "w" 5 sampleRunInput).getLast? =
      some (runResult "w" 5 sampleRunInput) ∧
    ((runResult "w" 5 sampleRunInput).status = .completed ∨
      (runResult "w" 5 sampleRunInput).status = .failed) ∧
    (runResult "w" 5 sampleRunInput).steps.map (fun s => s.name) =
      pipelineStepNames ∧
    (runResult "w" 5 sampleRunInput).steps.length = 4 ∧
    (∀ w : WorkflowResponse Unit,
      get_workflow_status [("w", w)] "w" = some w) :=
  C9_async_status_lifecycle "w" 5 sampleRunInput

/-! ## The step-record invariant (claim C8 machinery) -/

/-- The shape of the list of observable workflow states of one run. -/
theorem runTrace_shape {ρ : Type} (id : String) (c : Nat)
    (inp : RunInput ρ) :
    runTrace id c inp =
      ((initWorkflow ρ id c) ::
        { initWorkflow ρ id c with status := .running } ::
        (runStepsFrom inp { initWorkflow ρ id c with status := .running }
          (attemptedIndexes inp.fault)).1) ++ [runResult id c inp] := by
  rcases h : inp.fault with _ | j <;>
    simp [runTrace, execute_workflow_with_id, runResult, h]

/-- The final block does not modify the step records. -/
theorem runResult_steps_eq {ρ : Type} (id : String) (c : Nat)
    (inp : RunInput ρ) :
    (runResult id c inp).steps =
      (runStepsFrom inp { initWorkflow ρ id c with status := .running }
        (attemptedIndexes inp.fault)).2.2.steps := by
  rcases h : inp.fault with _ | j <;>
    simp [runResult, h, finalizeOk, finalizeFault]

theorem stepInv_fresh {ρ : Type} (n : String) : StepInv (mkStep ρ n) := by
  refine ⟨?_, ?_, ?_⟩ <;> simp [mkStep, StepInv]

theorem stepInv_begin {ρ : Type} (n : String) (t : Nat) :
    StepInv (stepBegin (mkStep ρ n) t) := by
  refine ⟨?_, ?_, ?_⟩ <;> simp [mkStep, stepBegin, StepInv]

theorem stepInv_settle {ρ : Type} (n : String) (o : StepOutcome ρ)
    (tmo t1 t2 : Nat) (h : t1 ≤ t2) :
    StepInv (stepSettle (stepBegin (mkStep ρ n) t1) o tmo t2) := by
  cases o <;>
    refine ⟨?_, ?_, ?_⟩ <;>
    simp [mkStep, stepBegin, stepSettle, computeDuration, StepInv] <;>
    omega

/-- Driving the Step Executor over distinct, still-pending step indexes
preserves the step-record invariant in every intermediate state and in
the final state. -/
theorem runStepsFrom_inv {ρ : Type} (inp : RunInput ρ)
    (hmono : ∀ i : Fin 4, (inp.stepTimes i).1 ≤ (inp.stepTimes i).2) :
    ∀ (idxs : List (Fin 4)) (w : WorkflowResponse ρ), idxs.Nodup →
      (∀ s ∈ w.steps, StepInv s) →
      (∀ i ∈ idxs, ∃ nm, w.steps.get? i.val = some (mkStep ρ nm)) →
      (∀ w' ∈ (runStepsFrom inp w idxs).1, ∀ s ∈ w'.steps, StepInv s) ∧
      (∀ s ∈ (runStepsFrom inp w idxs).2.2.steps, StepInv s)
  | [], w => by
      intro _ hw _
      exact ⟨by simp [runStepsFrom], by simpa [runStepsFrom] using hw⟩
  | i :: rest, w => by
      intro hnd hw hfresh
      obtain ⟨nm, hget⟩ := hfresh i (List.mem_cons_self i rest)
      have hlt : i.val < w.steps.length := by
        rcases List.get?_eq_some.1 hget with ⟨hl, _⟩
        exact hl
      have hwb : beginStepW w i.val (inp.stepTimes i).1 =
          setStep w i.val (stepBegin (mkStep ρ nm) (inp.stepTimes i).1) := by
        unfold beginStepW
        rw [hget]
      have hwbget : (beginStepW w i.val (inp.stepTimes i).1).steps.get? i.val
          = some (stepBegin (mkStep ρ nm) (inp.stepTimes i).1) := by
        rw [hwb]
        simp only [setStep]
        exact List.get?_set_eq_of_lt _ hlt
      have hws : settleStepW (beginStepW w i.val (inp.stepTimes i).1) i.val
            (inp.outcomes i) (stepTimeoutFor inp i) (inp.stepTimes i).2 =
          setStep (beginStepW w i.val (inp.stepTimes i).1) i.val
            (stepSettle (stepBegin (mkStep ρ nm) (inp.stepTimes i).1)
              (inp.outcomes i) (stepTimeoutFor inp i) (inp.stepTimes i).2) := by
        unfold settleStepW
        rw [hwbget]
      have hwbinv : ∀ s ∈ (beginStepW w i.val (inp.stepTimes i).1).steps,
          StepInv s := by
        intro s hs
        rw [hwb] at hs
        simp only [setStep] at hs
        rcases List.mem_or_eq_of_mem_set hs with h | rfl
        · exact hw s h
        · exact stepInv_begin nm _
      have hwsinv : ∀ s ∈ (settleStepW
            (beginStepW w i.val (inp.stepTimes i).1) i.val (inp.outcomes i)
            (stepTimeoutFor inp i) (inp.stepTimes i).2).steps, StepInv s := by
        intro s hs
        rw [hws] at hs
        simp only [setStep] at hs
        rcases List.mem_or_eq_of_mem_set hs with h | rfl
        · exact hwbinv s h
        · exact stepInv_settle nm _ _ _ _ (hmono i)
      have hrest : ∀ j ∈ rest, ∃ nm', (settleStepW
            (beginStepW w i.val (inp.stepTimes i).1) i.val (inp.outcomes i)
            (stepTimeoutFor inp i) (inp.stepTimes i).2).steps.get? j.val =
          some (mkStep ρ nm') := by
        intro j hj
        have hne : i.val ≠ j.val := by
          intro hv
          have hij : i = j := Fin.ext hv
          subst hij
          exact (List.nodup_cons.1 hnd).1 hj
        obtain ⟨nm', hget'⟩ := hfresh j (List.mem_cons_of_mem i hj)
        refine ⟨nm', ?_⟩
        rw [hws, hwb]
        simp only [setStep]
        rw [List.get?_set_ne _ _ hne, List.get?_set_ne _ _ hne]
        exact hget'
      have ih := runStepsFrom_inv inp hmono rest
        (settleStepW (beginStepW w i.val (inp.stepTimes i).1) i.val
          (inp.outcomes i) (stepTimeoutFor inp i) (inp.stepTimes i).2)
        (List.nodup_cons.1 hnd).2 hwsinv hrest
      constructor
      · intro w' hw'
        simp only [runStepsFrom, List.mem_cons] at hw'
        rcases hw' with rfl | rfl | hw'
        · exact hwbinv
        · exact hwsinv
        · exact ih.1 w' hw'
      · simpa [runStepsFrom] using ih.2

/-- C8: in every reachable workflow state of a run (the clock readings
of a step being non-decreasing), every step record satisfies: `result`
and `error` are never both set; `duration` is present iff both
`start_time` and `end_time` are present; and any present `duration` is
non-negative. -/
theorem C8_step_record_invariants {ρ : Type} (id : String) (c : Nat)
    (inp : RunInput ρ)
    (hmono : ∀ i : Fin 4, (inp.stepTimes i).1 ≤ (inp.stepTimes i).2) :
    ∀ w ∈ runTrace id c inp, ∀ s ∈ w.steps,
      (¬ (s.result.isSome = true ∧ s.error.isSome = true)) ∧
      (s.duration.isSome = true ↔
        (s.start_time.isSome = true ∧ s.end_time.isSome = true)) ∧
      (∀ d : Int, s.duration = some d → 0 ≤ d) := by
  have hfresh0 : ∀ s ∈ pipelineStepNames.map (mkStep ρ), StepInv s := by
    intro s hs
    rcases List.mem_map.1 hs with ⟨n, _, rfl⟩
    exact stepInv_fresh n
  have hnodup : (attemptedIndexes inp.fault).Nodup := by
    unfold attemptedIndexes
    have hsub : List.Sublist (([0, 1, 2, 3] : List (Fin 4)).take
        (attemptedCount inp.fault)) ([0, 1, 2, 3] : List (Fin 4)) :=
      List.take_sublist _ _
    exact List.Nodup.sublist hsub (by decide)
  have hget1 : ∀ i ∈ attemptedIndexes inp.fault, ∃ nm,
      ({ initWorkflow ρ id c with status := .running }
        : WorkflowResponse ρ).steps.get? i.val = some (mkStep ρ nm) := by
    intro i _
    rcases fin4_eq_literal i with rfl | rfl | rfl | rfl
    · exact ⟨"download_tweets", rfl⟩
    · exact ⟨"process_and_classify", rfl⟩
    · exact ⟨"polish_content", rfl⟩
    · exact ⟨"post_tweets", rfl⟩
  have hfresh1 : ∀ s ∈ ({ initWorkflow ρ id c with status := .running }
      : WorkflowResponse ρ).steps, StepInv s := by
    intro s hs
    exact hfresh0 s (by simpa [initWorkflow] using hs)
  have hinv := runStepsFrom_inv inp hmono (attemptedIndexes inp.fault)
    { initWorkflow ρ id c with status := .running } hnodup hfresh1 hget1
  intro w hw
  rw [runTrace_shape] at hw
  simp only [List.mem_append, List.mem_cons, List.not_mem_nil, or_false,
    List.mem_singleton] at hw
  rcases hw with (rfl | rfl | hw) | rfl
  · intro s hs
    exact hfresh0 s (by simpa [initWorkflow] using hs)
  · intro s hs
    exact hfresh0 s (by simpa [initWorkflow] using hs)
  · exact hinv.1 w hw
  · intro s hs
    rw [runResult_steps_eq] at hs
    exact hinv.2 s hs

/-- Witness for C8 at a concrete run input. -/
theorem C8_step_record_invariants_witness :
    (∀ i : Fin 4, (sampleRunInput.stepTimes i).1 ≤
      (sampleRunInput.stepTimes i).2) ∧
    (∀ w ∈ runTrace "w" 5 sampleRunInput, ∀ s ∈ w.steps,
      (¬ (s.result.isSome = true ∧ s.error.isSome = true)) ∧
      (s.duration.isSome = true ↔
        (s.start_time.isSome = true ∧ s.end_time.isSome = true)) ∧
      (∀ d : Int, s.duration = some d → 0 ≤ d)) :=
  ⟨by decide, C8_step_record_invariants "w" 5 sampleRunInput (by decide)⟩

/-! ## Persistence-layer lemmas (claims C6 and C7) -/

/-- The running maximum of the publish step's `max(...)` loop is the
seed or one of the folded elements. -/
theorem foldl_max_mem (k : Tweet → Nat) :
    ∀ (l : List Tweet) (a : Tweet),
      (l.foldl (fun acc x => if k acc < k x then x else acc) a) = a ∨
      (l.foldl (fun acc x => if k acc < k x then x else acc) a) ∈ l
  | [], _ => Or.inl rfl
  | x :: xs, a => by
      simp only [List.foldl]
      by_cases h : k a < k x
      · rw [if_pos h]
        rcases foldl_max_mem k xs x with h' | h'
        · exact Or.inr (by rw [h']; exact List.mem_cons_self x xs)
        · exact Or.inr (List.mem_cons_of_mem x h')
      · rw [if_neg h]
        rcases foldl_max_mem k xs a with h' | h'
        · exact Or.inl h'
        · exact Or.inr (List.mem_cons_of_mem x h')

/-- The running maximum of the publish step's `max(...)` loop dominates
the seed and every folded element. -/
theorem foldl_max_ge (k : Tweet → Nat) :
    ∀ (l : List Tweet) (a : Tweet),
      k a ≤ k (l.foldl (fun acc x => if k acc < k x then x else acc) a) ∧
      ∀ x ∈ l, k x ≤ k (l.foldl (fun acc x => if k acc < k x then x
        else acc) a)
  | [], a => ⟨le_refl _, by simp⟩
  | x :: xs, a => by
      simp only [List.foldl]
      by_cases h : k a < k x
      · rw [if_pos h]
        have ih := foldl_max_ge k xs x
        refine ⟨le_trans (le_of_lt h) ih.1, ?_⟩
        intro y hy
        rcases List.mem_cons.1 hy with rfl | hy'
        · exact ih.1
        · exact ih.2 y hy'
      · rw [if_neg h]
        have ih := foldl_max_ge k xs a
        refine ⟨ih.1, ?_⟩
        intro y hy
        rcases List.mem_cons.1 hy with rfl | hy'
        · exact le_trans (le_of_not_lt h) ih.1
        · exact ih.2 y hy'

theorem pyMaxBy_mem {k : Tweet → Nat} {l : List Tweet} {m : Tweet}
    (h : pyMaxBy k l = some m) : m ∈ l := by
  cases l with
  | nil => cases h
  | cons t ts =>
      simp only [pyMaxBy, Option.some_inj] at h
      subst h
      rcases foldl_max_mem k ts t with h' | h'
      · rw [h']
        exact List.mem_cons_self _ _
      · exact List.mem_cons_of_mem _ h'

theorem pyMaxBy_max {k : Tweet → Nat} {l : List Tweet} {m : Tweet}
    (h : pyMaxBy k l = some m) : ∀ x ∈ l, k x ≤ k m := by
  cases l with
  | nil => cases h
  | cons t ts =>
      simp only [pyMaxBy, Option.some_inj] at h
      subst h
      intro x hx
      rcases List.mem_cons.1 hx with rfl | hx'
      · exact (foldl_max_ge k ts x).1
      · exact (foldl_max_ge k ts t).2 x hx'

theorem pyMaxBy_ne_nil {k : Tweet → Nat} {l : List Tweet} (h : l ≠ []) :
    ∃ m, pyMaxBy k l = some m := by
  cases l with
  | nil => exact absurd rfl h
  | cons t ts => exact ⟨_, rfl⟩

/-- Every tweet returned by the username query is a row of the store. -/
theorem mem_get_tweets_by_username {db : List Tweet} {u : String}
    {status : Option String} {limit : Option Nat} {t : Tweet}
    (h : t ∈ get_tweets_by_username db u status limit) : t ∈ db := by
  unfold get_tweets_by_username at h
  have hq1 : ∀ x : Tweet,
      x ∈ db.filter (fun t : Tweet => t.username == u) → x ∈ db :=
    fun x hx => List.filter_subset' _ hx
  have hq2 : ∀ x : Tweet,
      x ∈ (match status with
        | some s => (db.filter (fun t : Tweet => t.username == u)).filter
            (fun t : Tweet => t.status == s)
        | none => db.filter (fun t : Tweet => t.username == u)) →
      x ∈ db := by
    intro x hx
    cases status with
    | none => exact hq1 x hx
    | some s => exact hq1 x (List.filter_subset' _ hx)
  cases limit with
  | none =>
      simp only at h
      exact hq2 t ((List.mem_insertionSort _).1 h)
  | some n =>
      simp only at h
      exact hq2 t ((List.mem_insertionSort _).1 (List.take_subset _ _ h))

/-- `update_tweet` on a store holding no row with the id is a no-op. -/
theorem update_tweet_of_not_mem :
    ∀ (db : List Tweet) (tid : String) (f : Tweet → Tweet),
      (∀ t ∈ db, t.tweet_id ≠ tid) → update_tweet db tid f = db
  | [], _, _, _ => rfl
  | x :: xs, tid, f, h => by
      have hx : ¬ ((x.tweet_id == tid) = true) := by
        simpa using h x (List.mem_cons_self x xs)
      simp only [update_tweet]
      rw [if_neg hx, update_tweet_of_not_mem xs tid f
        (fun t ht => h t (List.mem_cons_of_mem x ht))]

/-- `update_tweet` rewrites exactly the first row carrying the id and
keeps every other row unchanged. -/
theorem update_tweet_decomp :
    ∀ (db : List Tweet) (tid : String) (f : Tweet → Tweet) (t : Tweet),
      t ∈ db → t.tweet_id = tid →
      ∃ l₁ r l₂, db = l₁ ++ r :: l₂ ∧ r.tweet_id = tid ∧
        (∀ x ∈ l₁, x.tweet_id ≠ tid) ∧
        update_tweet db tid f = l₁ ++ f r :: l₂
  | [], _, _, t, ht, _ => absurd ht (List.not_mem_nil t)
  | x :: xs, tid, f, t, ht, htid => by
      by_cases hx : x.tweet_id = tid
      · refine ⟨[], x, xs, rfl, hx, by simp, ?_⟩
        simp only [update_tweet]
        rw [if_pos (by simpa using hx)]
        rfl
      · have htxs : t ∈ xs := by
          rcases List.mem_cons.1 ht with rfl | h'
          · exact absurd htid hx
          · exact h'
        obtain ⟨l₁, r, l₂, hdb, hrid, hl₁, hupd⟩ :=
          update_tweet_decomp xs tid f t htxs htid
        refine ⟨x :: l₁, r, l₂, by rw [hdb]; rfl, hrid, ?_, ?_⟩
        · intro y hy
          rcases List.mem_cons.1 hy with rfl | hy'
          · exact hx
          · exact hl₁ y hy'
        · simp only [update_tweet]
          rw [if_neg (by simpa using hx), hupd]
          rfl

/-- Every row of an updated store is an old row or the image of an old
row carrying the id. -/
theorem mem_update_tweet :
    ∀ {db : List Tweet} {tid : String} {f : Tweet → Tweet} {x : Tweet},
      x ∈ update_tweet db tid f →
      x ∈ db ∨ ∃ r ∈ db, r.tweet_id = tid ∧ x = f r
  | [], _, _, _, hx => Or.inl hx
  | y :: ys, tid, f, x, hx => by
      by_cases hy : y.tweet_id = tid
      · simp only [update_tweet] at hx
        rw [if_pos (by simpa using hy)] at hx
        rcases List.mem_cons.1 hx with rfl | hx'
        · exact Or.inr ⟨y, List.mem_cons_self y ys, hy, rfl⟩
        · exact Or.inl (List.mem_cons_of_mem y hx')
      · simp only [update_tweet] at hx
        rw [if_neg (by simpa using hy)] at hx
        rcases List.mem_cons.1 hx with rfl | hx'
        · exact Or.inl (List.mem_cons_self x ys)
        · rcases mem_update_tweet hx' with h | ⟨r, hr, hrid, hxf⟩
          · exact Or.inl (List.mem_cons_of_mem y h)
          · exact Or.inr ⟨r, List.mem_cons_of_mem y hr, hrid, hxf⟩

/-- An update whose field assignments keep `tweet_id` and
`original_text` preserves the store's (id, original text) sequence. -/
theorem update_tweet_map_key (tid : String) (f : Tweet → Tweet)
    (hf : ∀ x, (f x).tweet_id = x.tweet_id ∧
      (f x).original_text = x.original_text) :
    ∀ db : List Tweet,
      (update_tweet db tid f).map (fun t => (t.tweet_id, t.original_text))
        = db.map (fun t => (t.tweet_id, t.original_text))
  | [] => rfl
  | x :: xs => by
      by_cases hx : x.tweet_id = tid
      · simp only [update_tweet]
        rw [if_pos (by simpa using hx)]
        simp [List.map_cons, (hf x).1, (hf x).2]
      · simp only [update_tweet]
        rw [if_neg (by simpa using hx)]
        simp [List.map_cons, update_tweet_map_key tid f hf xs]

/-- C6 (amended): for every store whose 50 most recently created rows
for the target include at least one eligible item (rewritten text
present, status polished or downloaded), the publish step selects the
eligible item with the greatest `created_at` among those rows, hands its
text to the publish collaborator, and on success marks exactly that item
published (ids being unique in the schema). -/
theorem C6_publish_selects_latest_within_limit (db : List Tweet)
    (u newId : String) (now : Nat)
    (hids : (db.map (fun t => t.tweet_id)).Nodup)
    (hne : (get_tweets_by_username db u none (some 50)).filter
      isEligibleForPost ≠ []) :
    ∃ latest,
      pyMaxBy (fun t => t.created_at)
        ((get_tweets_by_username db u none (some 50)).filter
          isEligibleForPost) = some latest ∧
      latest ∈ (get_tweets_by_username db u none (some 50)).filter
        isEligibleForPost ∧
      isEligibleForPost latest = true ∧
      (∀ x ∈ (get_tweets_by_username db u none (some 50)).filter
        isEligibleForPost, x.created_at ≤ latest.created_at) ∧
      (post_tweets_step true db u (.success newId) now).result =
        .ok { posted_count := 1,
              message := "Posted polished tweet to destination account",
              published_tweet_id := some newId,
              original_tweet_id := some latest.tweet_id } ∧
      (post_tweets_step true db u (.success newId) now).publishedText =
        some (pyOrStr latest.polished_text latest.original_text) ∧
      ∃ l₁ l₂, db = l₁ ++ latest :: l₂ ∧
        (∀ x ∈ l₁, x.tweet_id ≠ latest.tweet_id) ∧
        (post_tweets_step true db u (.success newId) now).db =
          l₁ ++ markPublished now latest :: l₂ := by
  obtain ⟨latest, hmax⟩ := @pyMaxBy_ne_nil (fun t => t.created_at) _ hne
  have hmem := pyMaxBy_mem hmax
  have helig : isEligibleForPost latest = true := (List.mem_filter.1 hmem).2
  have hmemdb : latest ∈ db :=
    mem_get_tweets_by_username (List.mem_filter.1 hmem).1
  obtain ⟨l₁, r, l₂, hdb, hrid, hl₁, hupd⟩ :=
    update_tweet_decomp db latest.tweet_id (markPublished now) latest
      hmemdb rfl
  have hrdb : r ∈ db := by
    rw [hdb]
    exact List.mem_append_right _ (List.mem_cons_self _ _)
  have hr : r = latest :=
    List.inj_on_of_nodup_map hids hrdb hmemdb hrid
  subst hr
  have hpost : post_tweets_step true db u (.success newId) now =
      ⟨.ok { posted_count := 1,
             message := "Posted polished tweet to destination account",
             published_tweet_id := some newId,
             original_tweet_id := some r.tweet_id },
       update_tweet db r.tweet_id (markPublished now),
       some (pyOrStr r.polished_text r.original_text)⟩ := by
    simp only [post_tweets_step, Bool.not_true, Bool.false_eq_true,
      if_false]
    rw [hmax]
  exact ⟨r, hmax, hmem, helig, pyMaxBy_max hmax,
    by rw [hpost], by rw [hpost],
    l₁, l₂, hdb, hl₁, by rw [hpost]; exact hupd⟩

/-- C6 counterexample: the store contains an eligible item (rewritten
and not yet published), yet the publish step — which only examines the
50 most recently created rows — publishes nothing, marks nothing, and
returns the no-op result, contradicting the claim as stated. -/
theorem C6_counterexample_eligible_item_beyond_limit :
    eligibleOldTweet ∈ counterexampleStore ∧
    isEligibleForPost eligibleOldTweet = true ∧
    eligibleOldTweet.status = "polished" ∧
    eligibleOldTweet.posted_at = none ∧
    (post_tweets_step true counterexampleStore "u"
      (.success "n1") 99).result =
      .ok { posted_count := 0,
            message := "No polished tweets found to post" } ∧
    (post_tweets_step true counterexampleStore "u"
      (.success "n1") 99).db = counterexampleStore ∧
    (post_tweets_step true counterexampleStore "u"
      (.success "n1") 99).publishedText = none := by
  refine ⟨by decide, by decide, by decide, by decide, ?_, ?_, ?_⟩ <;>
    decide

/-- Witness for the amended C6 at a concrete one-row store. -/
theorem C6_publish_selects_latest_within_limit_witness :
    ((([eligibleOldTweet] : List Tweet).map (fun t => t.tweet_id)).Nodup ∧
      (get_tweets_by_username [eligibleOldTweet] "u" none
        (some 50)).filter isEligibleForPost ≠ []) ∧
    (∃ latest,
      pyMaxBy (fun t => t.created_at)
        ((get_tweets_by_username [eligibleOldTweet] "u" none
          (some 50)).filter isEligibleForPost) = some latest ∧
      latest ∈ (get_tweets_by_username [eligibleOldTweet] "u" none
        (some 50)).filter isEligibleForPost ∧
      isEligibleForPost latest = true ∧
      (∀ x ∈ (get_tweets_by_username [eligibleOldTweet] "u" none
        (some 50)).filter isEligibleForPost,
        x.created_at ≤ latest.created_at) ∧
      (post_tweets_step true [eligibleOldTweet] "u"
        (.success "n1") 99).result =
        .ok { posted_count := 1,
              message := "Posted polished tweet to destination account",
              published_tweet_id := some "n1",
              original_tweet_id := some latest.tweet_id } ∧
      (post_tweets_step true [eligibleOldTweet] "u"
        (.success "n1") 99).publishedText =
        some (pyOrStr latest.polished_text latest.original_text) ∧
      ∃ l₁ l₂, [eligibleOldTweet] = l₁ ++ latest :: l₂ ∧
        (∀ x ∈ l₁, x.tweet_id ≠ latest.tweet_id) ∧
        (post_tweets_step true [eligibleOldTweet] "u"
          (.success "n1") 99).db =
          l₁ ++ markPublished 99 latest :: l₂) :=
  ⟨⟨by decide, by decide⟩,
    C6_publish_selects_latest_within_limit [eligibleOldTweet] "u" "n1" 99
      (by decide) (by decide)⟩

/-- Fold invariant of the polish loop when the rewrite collaborator
fails on every item: the store keeps its (id, original text) sequence,
and every row either still lacks truthy rewritten text or carries its
own original text as its rewritten text. -/
theorem polish_fold_inv (db : List Tweet) (gen : Tweet → GenOutcome)
    (hids : (db.map (fun t => t.tweet_id)).Nodup)
    (hfail : ∀ t, ∃ m, gen t = .failure m) :
    ∀ (ts : List Tweet), (∀ t ∈ ts, t ∈ db) →
    ∀ (acc : List Tweet × Nat),
      (acc.1.map (fun t => (t.tweet_id, t.original_text)) =
        db.map (fun t => (t.tweet_id, t.original_text))) →
      (∀ r ∈ acc.1, pyTruthyStr r.polished_text = false ∨
        r.polished_text = some r.original_text) →
      ((ts.foldl (polishLoopBody gen) acc).1.map
          (fun t => (t.tweet_id, t.original_text)) =
        db.map (fun t => (t.tweet_id, t.original_text))) ∧
      (∀ r ∈ (ts.foldl (polishLoopBody gen) acc).1,
        pyTruthyStr r.polished_text = false ∨
        r.polished_text = some r.original_text)
  | [], _, acc, h1, h2 => ⟨h1, h2⟩
  | t :: ts, hmem, acc, h1, h2 => by
      have htdb : t ∈ db := hmem t (List.mem_cons_self t ts)
      have hrest : ∀ x ∈ ts, x ∈ db :=
        fun x hx => hmem x (List.mem_cons_of_mem t hx)
      simp only [List.foldl]
      by_cases ht : pyTruthyStr t.polished_text = true
      · have hbody : polishLoopBody gen acc t = acc := by
          simp [polishLoopBody, ht]
        rw [hbody]
        exact polish_fold_inv db gen hids hfail ts hrest acc h1 h2
      · obtain ⟨m, hm⟩ := hfail t
        have ht' : pyTruthyStr t.polished_text = false := by
          revert ht
          cases pyTruthyStr t.polished_text <;> simp
        have hnone : pyTruthyStr none = false := rfl
        have hbody : polishLoopBody gen acc t =
            (update_tweet acc.1 t.tweet_id
              (fun r => { r with polished_text := some t.original_text,
                                 status := "polished" }),
             acc.2 + 1) := by
          simp [polishLoopBody, ht', hm, polish_tweet_text, hnone]
        rw [hbody]
        have hf : ∀ x : Tweet, ({ x with polished_text := some t.original_text, status := "polished" } : Tweet).tweet_id = x.tweet_id ∧ ({ x with polished_text := some t.original_text, status := "polished" } : Tweet).original_text = x.original_text := fun x => ⟨rfl, rfl⟩
        have h1' : (update_tweet acc.1 t.tweet_id
            (fun r => { r with polished_text := some t.original_text,
                               status := "polished" })).map
              (fun t => (t.tweet_id, t.original_text)) =
            db.map (fun t => (t.tweet_id, t.original_text)) := by
          rw [update_tweet_map_key t.tweet_id _ hf acc.1, h1]
        have h2' : ∀ r ∈ update_tweet acc.1 t.tweet_id
            (fun r => { r with polished_text := some t.original_text,
                               status := "polished" }),
            pyTruthyStr r.polished_text = false ∨
            r.polished_text = some r.original_text := by
          intro r hr
          rcases mem_update_tweet hr with hold | ⟨r0, hr0, hr0id, rfl⟩
          · exact h2 r hold
          · refine Or.inr ?_
            have hpair : (r0.tweet_id, r0.original_text) ∈
                db.map (fun t => (t.tweet_id, t.original_text)) := by
              rw [← h1]
              exact List.mem_map_of_mem _ hr0
            obtain ⟨t', ht'db, ht'pair⟩ := List.mem_map.1 hpair
            have ht'id : t'.tweet_id = t.tweet_id := by
              have := congrArg Prod.fst ht'pair
              simpa [hr0id] using this
            have ht't : t' = t :=
              List.inj_on_of_nodup_map hids ht'db htdb ht'id
            have horig : r0.original_text = t.original_text := by
              have := congrArg Prod.snd ht'pair
              rw [ht't] at this
              exact this.symm
            simp [horig]
        exact polish_fold_inv db gen hids hfail ts hrest _ h1' h2'

/-- The polish loop body either leaves the accumulator alone or applies
`update_tweet` at the current item's id with an assignment that keeps
`tweet_id` and `original_text`. -/
theorem polishLoopBody_cases (gen : Tweet → GenOutcome)
    (acc : List Tweet × Nat) (t : Tweet) :
    polishLoopBody gen acc t = acc ∨
    ∃ f : Tweet → Tweet,
      (∀ y, (f y).tweet_id = y.tweet_id ∧
        (f y).original_text = y.original_text) ∧
      polishLoopBody gen acc t =
        (update_tweet acc.1 t.tweet_id f, acc.2 + 1) := by
  by_cases ht : pyTruthyStr t.polished_text = true
  · exact Or.inl (by simp [polishLoopBody, ht])
  · have ht' : pyTruthyStr t.polished_text = false := by
      revert ht
      cases pyTruthyStr t.polished_text <;> simp
    by_cases hp : pyTruthyStr
        (polish_tweet_text (gen t) t.original_text) = true
    · refine Or.inr ⟨(fun r => { r with
        polished_text := polish_tweet_text (gen t) t.original_text,
        status := "polished" }), fun y => ⟨rfl, rfl⟩, ?_⟩
      simp [polishLoopBody, ht', hp]
    · have hp' : pyTruthyStr
          (polish_tweet_text (gen t) t.original_text) = false := by
        revert hp
        cases pyTruthyStr (polish_tweet_text (gen t) t.original_text) <;>
          simp
      refine Or.inr ⟨(fun r => { r with
        polished_text := some t.original_text,
        status := "polished" }), fun y => ⟨rfl, rfl⟩, ?_⟩
      simp [polishLoopBody, ht', hp']

/-- `find?` by id over a cons whose head matches. -/
theorem find?_id_cons_pos (tid : String) (x : Tweet) (xs : List Tweet)
    (h : (x.tweet_id == tid) = true) :
    (x :: xs).find? (fun r => r.tweet_id == tid) = some x :=
  @List.find?_cons_of_pos Tweet (fun r => r.tweet_id == tid) x xs h

/-- `find?` by id over a cons whose head does not match. -/
theorem find?_id_cons_neg (tid : String) (x : Tweet) (xs : List Tweet)
    (h : ¬ (x.tweet_id == tid) = true) :
    (x :: xs).find? (fun r => r.tweet_id == tid) =
      xs.find? (fun r => r.tweet_id == tid) :=
  @List.find?_cons_of_neg Tweet (fun r => r.tweet_id == tid) x xs h

/-- `update_tweet` at a different id does not change which row a
`find?` by id sees. -/
theorem find?_update_tweet_ne (tid tid' : String) (f : Tweet → Tweet)
    (hne : tid' ≠ tid) (hf : ∀ x, (f x).tweet_id = x.tweet_id) :
    ∀ l : List Tweet,
      (update_tweet l tid' f).find? (fun r => r.tweet_id == tid) =
        l.find? (fun r => r.tweet_id == tid)
  | [] => rfl
  | x :: xs => by
      by_cases hx : x.tweet_id = tid'
      · simp only [update_tweet]
        rw [if_pos (by simpa using hx)]
        have hxid : ¬ ((f x).tweet_id == tid) = true := by
          rw [hf x]
          simp only [beq_iff_eq]
          rw [hx]
          exact hne
        have hxid' : ¬ (x.tweet_id == tid) = true := by
          simp only [beq_iff_eq]
          rw [hx]
          exact hne
        rw [find?_id_cons_neg tid _ _ hxid, find?_id_cons_neg tid _ _ hxid']
      · simp only [update_tweet]
        rw [if_neg (by simpa using hx)]
        by_cases hxt : (x.tweet_id == tid) = true
        · rw [find?_id_cons_pos tid _ _ hxt, find?_id_cons_pos tid _ _ hxt]
        · rw [find?_id_cons_neg tid _ _ hxt, find?_id_cons_neg tid _ _ hxt]
          exact find?_update_tweet_ne tid tid' f hne hf xs

/-- `update_tweet` at an id rewrites exactly the row a `find?` by that
id sees. -/
theorem find?_update_tweet_self (tid : String) (f : Tweet → Tweet)
    (hf : ∀ x, (f x).tweet_id = x.tweet_id) :
    ∀ (l : List Tweet) (r : Tweet),
      l.find? (fun r => r.tweet_id == tid) = some r →
      (update_tweet l tid f).find? (fun r => r.tweet_id == tid) =
        some (f r)
  | [], r, h => by cases h
  | x :: xs, r, h => by
      by_cases hx : (x.tweet_id == tid) = true
      · rw [find?_id_cons_pos tid _ _ hx] at h
        injection h with h
        subst h
        simp only [update_tweet]
        rw [if_pos hx]
        have hfx : ((f x).tweet_id == tid) = true := by rw [hf x]; exact hx
        rw [find?_id_cons_pos tid _ _ hfx]
      · rw [find?_id_cons_neg tid _ _ hx] at h
        simp only [update_tweet]
        rw [if_neg (by simpa using hx)]
        rw [find?_id_cons_neg tid _ _ hx]
        exact find?_update_tweet_self tid f hf xs r h

/-- Folding the polish loop over items whose ids all differ from `tid`
does not change which row a `find?` by `tid` sees. -/
theorem find?_polish_fold_ne (gen : Tweet → GenOutcome) (tid : String) :
    ∀ (ts : List Tweet) (acc : List Tweet × Nat),
      (∀ x ∈ ts, x.tweet_id ≠ tid) →
      ((ts.foldl (polishLoopBody gen) acc).1).find?
          (fun r => r.tweet_id == tid) =
        acc.1.find? (fun r => r.tweet_id == tid)
  | [], _, _ => rfl
  | x :: xs, acc, hne => by
      simp only [List.foldl]
      have hx := hne x (List.mem_cons_self x xs)
      have hxs := fun y hy => hne y (List.mem_cons_of_mem x hy)
      rcases polishLoopBody_cases gen acc x with hb | ⟨f, hfk, hb⟩
      · rw [hb]
        exact find?_polish_fold_ne gen tid xs acc hxs
      · rw [hb]
        rw [find?_polish_fold_ne gen tid xs _ hxs]
        exact find?_update_tweet_ne tid x.tweet_id f hx
          (fun y => (hfk y).1) acc.1

/-- With unique ids, the row a `find?` by a present row's id sees is
that row itself. -/
theorem find?_of_nodup_ids :
    ∀ (l : List Tweet), ((l.map (fun t => t.tweet_id)).Nodup) →
      ∀ t ∈ l, l.find? (fun r => r.tweet_id == t.tweet_id) = some t
  | [], _, t, ht => absurd ht (List.not_mem_nil t)
  | x :: xs, hnd, t, ht => by
      have hnd' : (x.tweet_id :: xs.map (fun t => t.tweet_id)).Nodup := by
        simpa using hnd
      by_cases hx : (x.tweet_id == t.tweet_id) = true
      · rw [find?_id_cons_pos t.tweet_id _ _ hx]
        have hxid : x.tweet_id = t.tweet_id := by simpa using hx
        rcases List.mem_cons.1 ht with rfl | htxs
        · rfl
        · exact absurd
            (hxid ▸ List.mem_map_of_mem (fun t => t.tweet_id) htxs)
            (List.nodup_cons.1 hnd').1
      · rw [find?_id_cons_neg t.tweet_id _ _ hx]
        have htxs : t ∈ xs := by
          rcases List.mem_cons.1 ht with rfl | htxs
          · exact absurd (by simp) hx
          · exact htxs
        exact find?_of_nodup_ids xs (List.nodup_cons.1 hnd').2 t htxs

/-- The username query returns rows with pairwise distinct ids whenever
the store has unique ids. -/
theorem query_ids_nodup {db : List Tweet} {u : String}
    {status : Option String}
    (hids : (db.map (fun t => t.tweet_id)).Nodup) :
    ((get_tweets_by_username db u status none).map
      (fun t => t.tweet_id)).Nodup := by
  have hq1 : ((db.filter (fun t : Tweet => t.username == u)).map
      (fun t => t.tweet_id)).Nodup :=
    List.Nodup.sublist (List.Sublist.map _ (List.filter_sublist db)) hids
  cases status with
  | none =>
      show (((db.filter (fun t : Tweet => t.username == u)).insertionSort
        (fun a b => b.created_at ≤ a.created_at)).map
          (fun t => t.tweet_id)).Nodup
      exact ((List.perm_insertionSort _ _).map
        (fun t : Tweet => t.tweet_id)).nodup_iff.2 hq1
  | some s =>
      show ((((db.filter (fun t : Tweet => t.username == u)).filter
        (fun t : Tweet => t.status == s)).insertionSort
        (fun a b => b.created_at ≤ a.created_at)).map
          (fun t => t.tweet_id)).Nodup
      exact ((List.perm_insertionSort _ _).map
        (fun t : Tweet => t.tweet_id)).nodup_iff.2
        (List.Nodup.sublist (List.Sublist.map _ (List.filter_sublist _))
          hq1)

/-- Per-item fallback of the polish loop, for an arbitrary rewrite
collaborator: if a queried item lacks truthy rewritten text and the
polisher returns `None` for it, then after the step the store's row with
that item's id carries the item's original text as its rewritten text
and status `"polished"`. -/
theorem polish_per_item_fallback (db : List Tweet) (u : String)
    (gen : Tweet → GenOutcome)
    (hids : (db.map (fun t => t.tweet_id)).Nodup) (t : Tweet)
    (htq : t ∈ get_tweets_by_username db u (some "processed") none)
    (hnt : pyTruthyStr t.polished_text = false)
    (hft : polish_tweet_text (gen t) t.original_text = none) :
    (polish_content_step db u gen).1.find?
        (fun r => r.tweet_id == t.tweet_id) =
      some { t with polished_text := some t.original_text,
                    status := "polished" } := by
  obtain ⟨l₁, l₂, hq⟩ := List.append_of_mem htq
  have hqids := @query_ids_nodup db u (some "processed") hids
  rw [hq, List.map_append, List.map_cons] at hqids
  have hnotmem := (List.nodup_cons.1 (List.nodup_middle.1 hqids)).1
  have hne₁ : ∀ x ∈ l₁, x.tweet_id ≠ t.tweet_id := by
    intro x hx hxe
    exact hnotmem (List.mem_append_left _
      (hxe ▸ List.mem_map_of_mem (fun r => r.tweet_id) hx))
  have hne₂ : ∀ x ∈ l₂, x.tweet_id ≠ t.tweet_id := by
    intro x hx hxe
    exact hnotmem (List.mem_append_right _
      (hxe ▸ List.mem_map_of_mem (fun r => r.tweet_id) hx))
  have hstep : (polish_content_step db u gen).1 =
      ((l₁ ++ t :: l₂).foldl (polishLoopBody gen) (db, 0)).1 := by
    unfold polish_content_step
    rw [hq]
  rw [hstep, List.foldl_append]
  simp only [List.foldl]
  have hfind₁ : ((l₁.foldl (polishLoopBody gen) (db, 0)).1).find?
      (fun r => r.tweet_id == t.tweet_id) = some t := by
    rw [find?_polish_fold_ne gen t.tweet_id l₁ (db, 0) hne₁]
    exact find?_of_nodup_ids db hids t (mem_get_tweets_by_username htq)
  have hnone : pyTruthyStr none = false := rfl
  have hbody : polishLoopBody gen (l₁.foldl (polishLoopBody gen) (db, 0)) t
      = (update_tweet (l₁.foldl (polishLoopBody gen) (db, 0)).1 t.tweet_id
          (fun r => { r with polished_text := some t.original_text,
                             status := "polished" }),
         (l₁.foldl (polishLoopBody gen) (db, 0)).2 + 1) := by
    simp [polishLoopBody, hnt, hft, hnone]
  rw [hbody, find?_polish_fold_ne gen t.tweet_id l₂ _ hne₂]
  exact find?_update_tweet_self t.tweet_id
    (fun r => { r with polished_text := some t.original_text,
                       status := "polished" })
    (fun y => rfl) _ t hfind₁

/-- C7: for every classified item lacking rewritten text, when the
rewrite collaborator fails on it the polish step stores the item's
original text as its rewritten text instead of failing; in particular,
when the collaborator fails for every item, the polish step still
returns normally — so the Step Executor records it `completed` — every
row with truthy rewritten text carries its original text, and the item
the publish step then selects for posting carries text equal to its
original text. -/
theorem C7_polish_falls_back_to_original (db : List Tweet) (u : String)
    (gen : Tweet → GenOutcome) (tmo t1 t2 : Nat)
    (hids : (db.map (fun t => t.tweet_id)).Nodup)
    (hnopol : ∀ t ∈ db, pyTruthyStr t.polished_text = false)
    (hfail : ∀ t, ∃ m, gen t = .failure m) :
    (∀ t ∈ get_tweets_by_username db u (some "processed") none,
      pyTruthyStr t.polished_text = false →
      polish_tweet_text (gen t) t.original_text = none →
      (polish_content_step db u gen).1.find?
          (fun r => r.tweet_id == t.tweet_id) =
        some { t with polished_text := some t.original_text,
                      status := "polished" }) ∧
    (∀ t ∈ (polish_content_step db u gen).1,
      pyTruthyStr t.polished_text = true →
      t.polished_text = some t.original_text) ∧
    (execute_step_with_timeout (mkStep Nat "polish_content")
      (.ok (polish_content_step db u gen).2) tmo t1 t2).status =
      .completed ∧
    (∀ latest, pyMaxBy (fun t => t.created_at)
        ((get_tweets_by_username (polish_content_step db u gen).1 u none
          (some 50)).filter isEligibleForPost) = some latest →
      pyOrStr latest.polished_text latest.original_text =
        latest.original_text) := by
  have hinv := polish_fold_inv db gen hids hfail
    (get_tweets_by_username db u (some "processed") none)
    (fun t ht => mem_get_tweets_by_username ht)
    (db, 0) rfl (fun r hr => Or.inl (hnopol r hr))
  have hstep : (polish_content_step db u gen).1 =
      ((get_tweets_by_username db u (some "processed") none).foldl
        (polishLoopBody gen) (db, 0)).1 := rfl
  have hpart1 : ∀ t ∈ (polish_content_step db u gen).1,
      pyTruthyStr t.polished_text = true →
      t.polished_text = some t.original_text := by
    intro t ht htruthy
    rw [hstep] at ht
    rcases hinv.2 t ht with h | h
    · rw [htruthy] at h
      exact Bool.noConfusion h
    · exact h
  refine ⟨fun t htq hnt hft =>
    polish_per_item_fallback db u gen hids t htq hnt hft, hpart1, rfl, ?_⟩
  intro latest hlat
  have hmem := pyMaxBy_mem hlat
  have helig : isEligibleForPost latest = true := (List.mem_filter.1 hmem).2
  have hmemdb : latest ∈ (polish_content_step db u gen).1 :=
    mem_get_tweets_by_username (List.mem_filter.1 hmem).1
  have htruthy : pyTruthyStr latest.polished_text = true := by
    simp only [isEligibleForPost, Bool.and_eq_true] at helig
    exact helig.1
  have hpol : latest.polished_text = some latest.original_text :=
    hpart1 latest hmemdb htruthy
  rw [hpol] at htruthy ⊢
  simp only [pyTruthyStr, Bool.not_eq_true'] at htruthy
  simp [pyOrStr, htruthy]

/-- Witness for C7 at a concrete one-row store with an always-failing
rewrite collaborator. -/
theorem C7_polish_falls_back_to_original_witness :
    (∀ t ∈ get_tweets_by_username [processedTweet] "u"
        (some "processed") none,
      pyTruthyStr t.polished_text = false →
      polish_tweet_text (alwaysFailingGen t) t.original_text = none →
      (polish_content_step [processedTweet] "u" alwaysFailingGen).1.find?
          (fun r => r.tweet_id == t.tweet_id) =
        some { t with polished_text := some t.original_text,
                      status := "polished" }) ∧
    (∀ t ∈ (polish_content_step [processedTweet] "u" alwaysFailingGen).1,
      pyTruthyStr t.polished_text = true →
      t.polished_text = some t.original_text) ∧
    (execute_step_with_timeout (mkStep Nat "polish_content")
      (.ok (polish_content_step [processedTweet] "u" alwaysFailingGen).2)
      60 7 8).status = .completed ∧
    (∀ latest, pyMaxBy (fun t => t.created_at)
        ((get_tweets_by_username
          (polish_content_step [processedTweet] "u" alwaysFailingGen).1
          "u" none (some 50)).filter isEligibleForPost) = some latest →
      pyOrStr latest.polished_text latest.original_text =
        latest.original_text) :=
  C7_polish_falls_back_to_original [processedTweet] "u" alwaysFailingGen
    60 7 8 (by decide) (by decide) (fun t => ⟨"api down", rfl⟩)

end XPostReplicator

